import Mathlib

/-!
Verification development for the NFC4_HugsForBugs document pipeline.

Shallow embedding of the repository's core modules:
* `src/core/document_processor.py` (hashing, caching, text cleaning,
  extraction dispatch, persistence, cache cleanup),
* `src/core/summarizer.py` (section detection, summarization fallbacks),
* `src/core/basic_rag_engine.py` (ask / stats),
* `src/utils/text_utils.py` (clean_text).

Python strings are modelled as `List Char` / `String`; raw file bytes as
`List Nat` (each < 256); SQLite tables as Lean lists of records; calls to
external network/ML backends are parameters of the modelled functions.
-/

set_option maxRecDepth 4000

namespace Pipeline

/-! ## Python string primitives used by the pipeline -/

/-- Python's whitespace class for `\s` and `str.strip()`, restricted to the
ASCII whitespace characters (space, tab, newline, vertical tab, form feed,
carriage return).  CPython additionally treats some non-ASCII Unicode
code points as whitespace; none of the proofs below depend on the exact
extent of the class. -/
def isPyWS (c : Char) : Bool :=
  c.toNat = 32 || c.toNat = 9 || c.toNat = 10 || c.toNat = 11 ||
  c.toNat = 12 || c.toNat = 13

/-- Python `str.strip()` on a list of characters: drop whitespace from both
ends. -/
def pyStripL (l : List Char) : List Char :=
  ((l.dropWhile isPyWS).reverse.dropWhile isPyWS).reverse

/-- Python `str.strip()` on a `String`. -/
def pyStrip (s : String) : String :=
  String.mk (pyStripL s.data)

/-- Python's separator-less `str.split()`: split on whitespace runs and
drop empty pieces. -/
def pySplitWS (s : String) : List String :=
  (s.data.splitOnP isPyWS).filter (fun w => ¬ w.isEmpty) |>.map String.mk

/-- Python `str.replace(old, new)`: replace all non-overlapping occurrences,
scanning left to right (the replacement text is not rescanned). -/
def pyReplaceL (pat rep : List Char) : List Char → List Char
  | [] => []
  | c :: rest =>
    if pat ≠ [] ∧ pat.isPrefixOf (c :: rest) then
      rep ++ pyReplaceL pat rep ((c :: rest).drop pat.length)
    else
      c :: pyReplaceL pat rep rest
termination_by l => l.length
decreasing_by
  · simp only [List.length_drop, List.length_cons]
    have hp : pat.length ≠ 0 := by
      rename_i h; intro h0; exact h.1 (List.eq_nil_of_length_eq_zero h0)
    omega
  · simp

/-- Python `str.replace` on `String`s. -/
def pyReplace (s pat rep : String) : String :=
  String.mk (pyReplaceL pat.data rep.data s.data)

/-- Python `"sep".join(parts)`. -/
def pyJoin (sep : String) : List String → String
  | [] => ""
  | [s] => s
  | s :: rest => s ++ sep ++ pyJoin sep rest

/-- Python `str.lower()` restricted to ASCII case mapping. -/
def pyLower (s : String) : String :=
  String.mk (s.data.map Char.toLower)

/-- Python `sub in s` substring test. -/
def pyContains (s sub : String) : Bool :=
  (s.data.tails.any (fun t => sub.data.isPrefixOf t))

/-- Python `str.isupper()` restricted to ASCII: at least one cased character
and no lower-case cased character. -/
def pyIsUpper (s : String) : Bool :=
  (s.data.any (fun c => c.isUpper || c.isLower)) &&
  (s.data.all (fun c => ¬ c.isLower))

/-- Python `str.isdigit()` restricted to ASCII digits. -/
def pyIsDigit (s : String) : Bool :=
  (¬ s.data.isEmpty) && s.data.all Char.isDigit

/-- Python `str.split(sep)` for a one-character separator (the pipeline
only splits on `"\n"` and `"."`): splitting the empty string gives one
empty piece, and separators at the ends give empty pieces. -/
def splitOnChar (sep : Char) : List Char → List (List Char)
  | [] => [[]]
  | c :: rest =>
    if c = sep then [] :: splitOnChar sep rest
    else
      match splitOnChar sep rest with
      | h :: t => (c :: h) :: t
      | [] => [[c]]

/-- `text.split("\n")` as a list of strings. -/
def splitLines (text : String) : List String :=
  (splitOnChar '\n' text.data).map String.mk

/-- Python slicing `s[:n]` (by code point). -/
def pyTake (n : Nat) (s : String) : String :=
  String.mk (s.data.take n)

/-- `line.endswith(('.', ':', ';'))`. -/
def endsWithSentencePunct (ls : String) : Bool :=
  match ls.data.getLast? with
  | some c => c = '.' || c = ':' || c = ';'
  | none => false

/-! ## Text normalizer (`clean_text`)

`src/core/document_processor.py::DocumentProcessor.clean_text` performs, in
order:
1. `re.sub(r'\s+', ' ', text)` — collapse each maximal whitespace run to a
   single space;
2. `re.sub(r'[^\w\s...]', ' ', text)` — replace every character outside the
   allow-list by a space;
3. `re.sub(r'\n\s*\n', '\n\n', text)` — collapse blank-line runs;
4. `str.strip()`.
-/

/-- Step 1: `re.sub(r'\s+', ' ', text)`.  Each maximal run of whitespace
becomes one space (`\s+` is greedy and `re.sub` takes leftmost-longest,
non-overlapping matches). -/
def collapseWS : List Char → List Char
  | [] => []
  | c :: rest =>
    if isPyWS c then ' ' :: collapseWS (rest.dropWhile isPyWS)
    else c :: collapseWS rest
termination_by l => l.length
decreasing_by
  · have : (rest.dropWhile isPyWS).length ≤ rest.length :=
      (List.dropWhile_sublist _).length_le
    simp
    omega
  · simp

/-- The word class `\w`, restricted to ASCII (`[a-zA-Z0-9_]`).  CPython's
`\w` additionally matches non-ASCII word characters; the idempotence proofs
below do not depend on the exact extent of the allow-list. -/
def isWordChar (c : Char) : Bool :=
  c.isAlphanum || c = '_'

/-- The punctuation characters explicitly allowed by the character class in
`re.sub(r'[^\w\s\-\.\,\!\?\:\;\(\)\[\]\{\}\"\'\/\\\@\#\$\%\^\&\*\+\=\<\>\~\`]', ' ', text)`,
given by code point. -/
def allowedPunct : List Nat :=
  [45, 46, 44, 33, 63, 58, 59, 40, 41, 91, 93, 123, 125, 34, 39, 47, 92,
   64, 35, 36, 37, 94, 38, 42, 43, 61, 60, 62, 126, 96]

/-- A character survives step 2 iff it is a word character, whitespace, or
an allowed punctuation character. -/
def isAllowed (c : Char) : Bool :=
  isWordChar c || isPyWS c || allowedPunct.contains c.toNat

/-- Step 2: replace every disallowed character by a space. -/
def substDisallowed (l : List Char) : List Char :=
  l.map (fun c => if isAllowed c then c else ' ')

/-- Step 3: `re.sub(r'\n\s*\n', '\n\n', text)`.  At each leftmost match — a
newline followed by a greedy whitespace run ending in another newline — emit
exactly two newlines and continue after the match. -/
def normBreaks : List Char → List Char
  | [] => []
  | c :: rest =>
    if c = '\n' then
      let run := rest.takeWhile isPyWS
      if run.contains '\n' then
        -- greedy `\s*`: the match ends at the *last* newline of the run
        let j := run.length - 1 - (List.findIdx (fun c => c = '\n') run.reverse)
        '\n' :: '\n' :: normBreaks (rest.drop (j + 1))
      else c :: normBreaks rest
    else c :: normBreaks rest
termination_by l => l.length
decreasing_by
  · simp only [List.length_drop, List.length_cons]; omega
  · simp
  · simp

/-- The four cleaning steps on the underlying character list. -/
def cleanL (l : List Char) : List Char :=
  pyStripL (normBreaks (substDisallowed (collapseWS l)))

/-- `DocumentProcessor.clean_text` from `src/core/document_processor.py`. -/
def clean_text (s : String) : String :=
  String.mk (cleanL s.data)

/-- `clean_text` from `src/utils/text_utils.py`: identical body, with an
extra early return for falsy (empty) input. -/
def clean_text_utils (s : String) : String :=
  if s = "" then "" else clean_text s

/-! ## SHA-256 (`DocumentProcessor.get_file_hash`)

`hashlib.sha256(file_content).hexdigest()` — the FIPS 180-4 SHA-256 digest
of the raw file bytes, rendered as lower-case hex.  Words are `Nat`s taken
modulo `2^32`. -/

namespace SHA256

def M32 : Nat := 4294967296

/-- Right rotation of a 32-bit word. -/
def rotr (n x : Nat) : Nat :=
  ((x >>> n) + ((x % (2 ^ n)) <<< (32 - n))) % M32

def shiftr (n x : Nat) : Nat := x >>> n

def bxor (a b : Nat) : Nat := a ^^^ b
def band (a b : Nat) : Nat := a &&& b
def bnot32 (a : Nat) : Nat := a ^^^ (M32 - 1)

def bigSigma0 (x : Nat) : Nat := bxor (rotr 2 x) (bxor (rotr 13 x) (rotr 22 x))
def bigSigma1 (x : Nat) : Nat := bxor (rotr 6 x) (bxor (rotr 11 x) (rotr 25 x))
def smallSigma0 (x : Nat) : Nat := bxor (rotr 7 x) (bxor (rotr 18 x) (shiftr 3 x))
def smallSigma1 (x : Nat) : Nat := bxor (rotr 17 x) (bxor (rotr 19 x) (shiftr 10 x))

def ch (x y z : Nat) : Nat := bxor (band x y) (band (bnot32 x) z)
def maj (x y z : Nat) : Nat := bxor (band x y) (bxor (band x z) (band y z))

def K : List Nat :=
  [1116352408, 1899447441, 3049323471, 3921009573, 961987163,
   1508970993, 2453635748, 2870763221, 3624381080, 310598401,
   607225278, 1426881987, 1925078388, 2162078206, 2614888103,
   3248222580, 3835390401, 4022224774, 264347078, 604807628,
   770255983, 1249150122, 1555081692, 1996064986, 2554220882,
   2821834349, 2952996808, 3210313671, 3336571891, 3584528711,
   113926993, 338241895, 666307205, 773529912, 1294757372,
   1396182291, 1695183700, 1986661051, 2177026350, 2456956037,
   2730485921, 2820302411, 3259730800, 3345764771, 3516065817,
   3600352804, 4094571909, 275423344, 430227734, 506948616,
   659060556, 883997877, 958139571, 1322822218, 1537002063,
   1747873779, 1955562222, 2024104815, 2227730452, 2361852424,
   2428436474, 2756734187, 3204031479, 3329325298]

def H0 : List Nat :=
  [1779033703, 3144134277, 1013904242, 2773480762,
   1359893119, 2600822924, 528734635, 1541459225]

/-- Pad the message (as bytes) to a multiple of 64 bytes: append `0x80`,
zeros, then the bit length as a 64-bit big-endian integer. -/
def pad (msg : List Nat) : List Nat :=
  let bitLen := 8 * msg.length
  let zeros := (64 - ((msg.length + 9) % 64)) % 64
  msg ++ [0x80] ++ List.replicate zeros 0 ++
    ((List.range 8).map (fun i => (bitLen >>> (8 * (7 - i))) % 256))

/-- Big-endian 32-bit words from bytes. -/
def toWords : List Nat → List Nat
  | b0 :: b1 :: b2 :: b3 :: rest =>
    (((b0 * 256 + b1) * 256 + b2) * 256 + b3) :: toWords rest
  | _ => []

/-- The 64-entry message schedule from the 16 block words. -/
def schedule (ws : List Nat) : Nat → List Nat
  | 0 => ws.reverse  -- accumulated in reverse order
  | n + 1 =>
    let prev := schedule ws n
    -- prev is in reverse order: prev.get 0 is W[t-1]
    let t := prev.length
    if t < 16 then prev
    else
      let w2 := prev.getD 1 0
      let w7 := prev.getD 6 0
      let w15 := prev.getD 14 0
      let w16 := prev.getD 15 0
      ((smallSigma1 w2 + w7 + smallSigma0 w15 + w16) % M32) :: prev

def messageSchedule (ws : List Nat) : List Nat :=
  (schedule ws 48).reverse

/-- One round of the compression function. -/
def round (st : List Nat) (kw : Nat × Nat) : List Nat :=
  match st with
  | [a, b, c, d, e, f, g, h] =>
    let t1 := (h + bigSigma1 e + ch e f g + kw.1 + kw.2) % M32
    let t2 := (bigSigma0 a + maj a b c) % M32
    [(t1 + t2) % M32, a, b, c, (d + t1) % M32, e, f, g]
  | st => st

/-- Compress one 64-byte block into the running hash state. -/
def compress (h : List Nat) (block : List Nat) : List Nat :=
  let ws := messageSchedule (toWords block)
  let st := (K.zip ws).foldl (fun st kw => round st kw) h
  (h.zip st).map (fun p => (p.1 + p.2) % M32)

set_option linter.unusedVariables false in
def chunks64 (l : List Nat) : List (List Nat) :=
  if h : l = [] then []
  else l.take 64 :: chunks64 (l.drop 64)
termination_by l.length
decreasing_by
  have : l.length ≠ 0 := fun h0 => h (List.eq_nil_of_length_eq_zero h0)
  simp only [List.length_drop]
  omega

def hexDigit (n : Nat) : Char :=
  if n < 10 then Char.ofNat (48 + n) else Char.ofNat (87 + n)

def wordToHex (w : Nat) : List Char :=
  (List.range 8).map (fun i => hexDigit ((w >>> (4 * (7 - i))) % 16))

/-- SHA-256 digest of a byte list, as a lower-case hex string. -/
def sha256Hex (msg : List Nat) : String :=
  let final := (chunks64 (pad msg)).foldl compress H0
  String.mk (final.flatMap wordToHex)

end SHA256

/-- `DocumentProcessor.get_file_hash`: SHA-256 hex digest of the raw file
content. -/
def get_file_hash (file_content : List Nat) : String :=
  SHA256.sha256Hex file_content

/-! ## Text-file decoding (`DocumentProcessor.extract_text_from_txt`)

Models CPython's strict `utf-8`, `utf-16`, `latin-1` and `cp1252` codecs on
byte lists, plus the universal-newline translation performed by reading a
file in text mode. -/

/-- Strict UTF-8 decoding (CPython `bytes.decode('utf-8')`): rejects
continuation-byte starts, overlong encodings, surrogates, and code points
above U+10FFFF. -/
def utf8Decode : List Nat → Option (List Char)
  | [] => some []
  | b :: rest =>
    if b < 0x80 then (utf8Decode rest).map (Char.ofNat b :: ·)
    else if b < 0xC2 then none
    else if b < 0xE0 then
      match rest with
      | b1 :: rest' =>
        if 0x80 ≤ b1 ∧ b1 < 0xC0 then
          (utf8Decode rest').map (Char.ofNat ((b - 0xC0) * 64 + (b1 - 0x80)) :: ·)
        else none
      | [] => none
    else if b < 0xF0 then
      match rest with
      | b1 :: b2 :: rest' =>
        let lo1 := if b = 0xE0 then 0xA0 else 0x80
        let hi1 := if b = 0xED then 0xA0 else 0xC0
        if (lo1 ≤ b1 ∧ b1 < hi1) ∧ (0x80 ≤ b2 ∧ b2 < 0xC0) then
          (utf8Decode rest').map
            (Char.ofNat ((b - 0xE0) * 4096 + (b1 - 0x80) * 64 + (b2 - 0x80)) :: ·)
        else none
      | _ => none
    else if b < 0xF5 then
      match rest with
      | b1 :: b2 :: b3 :: rest' =>
        let lo1 := if b = 0xF0 then 0x90 else 0x80
        let hi1 := if b = 0xF4 then 0x90 else 0xC0
        if (lo1 ≤ b1 ∧ b1 < hi1) ∧ (0x80 ≤ b2 ∧ b2 < 0xC0) ∧
            (0x80 ≤ b3 ∧ b3 < 0xC0) then
          (utf8Decode rest').map
            (Char.ofNat ((b - 0xF0) * 262144 + (b1 - 0x80) * 4096 +
              (b2 - 0x80) * 64 + (b3 - 0x80)) :: ·)
        else none
      | _ => none
    else none

/-- Strict UTF-16 code-unit decoding with the given endianness (`be`),
pairing surrogates; rejects lone surrogates and truncated data. -/
def utf16Units (be : Bool) : List Nat → Option (List Char)
  | [] => some []
  | [_] => none
  | x :: y :: rest =>
    let u := if be then x * 256 + y else y * 256 + x
    if u < 0xD800 ∨ 0xE000 ≤ u then
      (utf16Units be rest).map (Char.ofNat u :: ·)
    else if u < 0xDC00 then
      match rest with
      | x2 :: y2 :: rest' =>
        let v := if be then x2 * 256 + y2 else y2 * 256 + x2
        if 0xDC00 ≤ v ∧ v < 0xE000 then
          (utf16Units be rest').map
            (Char.ofNat (0x10000 + (u - 0xD800) * 1024 + (v - 0xDC00)) :: ·)
        else none
      | _ => none
    else none

/-- CPython's `utf-16` codec: honours a BOM and strips it; without a BOM it
assumes the platform's (little-endian) byte order. -/
def utf16Decode : List Nat → Option (List Char)
  | 0xFF :: 0xFE :: rest => utf16Units false rest
  | 0xFE :: 0xFF :: rest => utf16Units true rest
  | bs => utf16Units false bs

/-- `latin-1` maps every byte to the code point of the same value; it never
fails. -/
def latin1Decode (bs : List Nat) : List Char :=
  bs.map Char.ofNat

/-- The cp1252 mapping for bytes 0x80–0x9F; `none` marks the five bytes the
codec leaves undefined. -/
def cp1252Table (b : Nat) : Option Nat :=
  if b = 0x80 then some 0x20AC else if b = 0x82 then some 0x201A
  else if b = 0x83 then some 0x0192 else if b = 0x84 then some 0x201E
  else if b = 0x85 then some 0x2026 else if b = 0x86 then some 0x2020
  else if b = 0x87 then some 0x2021 else if b = 0x88 then some 0x02C6
  else if b = 0x89 then some 0x2030 else if b = 0x8A then some 0x0160
  else if b = 0x8B then some 0x2039 else if b = 0x8C then some 0x0152
  else if b = 0x8E then some 0x017D else if b = 0x91 then some 0x2018
  else if b = 0x92 then some 0x2019 else if b = 0x93 then some 0x201C
  else if b = 0x94 then some 0x201D else if b = 0x95 then some 0x2022
  else if b = 0x96 then some 0x2013 else if b = 0x97 then some 0x2014
  else if b = 0x98 then some 0x02DC else if b = 0x99 then some 0x2122
  else if b = 0x9A then some 0x0161 else if b = 0x9B then some 0x203A
  else if b = 0x9C then some 0x0153 else if b = 0x9E then some 0x017E
  else if b = 0x9F then some 0x0178 else none

/-- Strict cp1252 decoding: identity outside 0x80–0x9F, table inside, error
on the five undefined bytes. -/
def cp1252Decode : List Nat → Option (List Char)
  | [] => some []
  | b :: rest =>
    if b < 0x80 ∨ 0xA0 ≤ b then
      (cp1252Decode rest).map (Char.ofNat b :: ·)
    else
      match cp1252Table b with
      | some cp => (cp1252Decode rest).map (Char.ofNat cp :: ·)
      | none => none

/-- Universal-newline translation done by text-mode `file.read()`:
`"\r\n"` and a lone `"\r"` both become `"\n"`. -/
def translateNewlines : List Char → List Char
  | [] => []
  | [c] => if c = '\r' then ['\n'] else [c]
  | c :: d :: rest =>
    if c = '\r' then
      if d = '\n' then '\n' :: translateNewlines rest
      else '\n' :: translateNewlines (d :: rest)
    else c :: translateNewlines (d :: rest)

/-- `open(file_path, 'r', encoding=enc).read()`: decode the whole byte
content with `enc`, then translate newlines; `none` models
`UnicodeDecodeError`. -/
def pyTextRead (enc : String) (bs : List Nat) : Option String :=
  let dec : Option (List Char) :=
    if enc = "utf-8" then utf8Decode bs
    else if enc = "utf-16" then utf16Decode bs
    else if enc = "latin-1" then some (latin1Decode bs)
    else if enc = "cp1252" then cp1252Decode bs
    else none
  dec.map (fun cs => String.mk (translateNewlines cs))

/-- The ordered encoding list tried by `extract_text_from_txt`. -/
def txtEncodings : List String := ["utf-8", "utf-16", "latin-1", "cp1252"]

/-- The `for encoding in encodings` loop: return the text (and the encoding
recorded in the metadata) for the first encoding that decodes, else the
empty result. -/
def tryEncodings (bs : List Nat) : List String → String × String
  | [] => ("", "")
  | enc :: rest =>
    match pyTextRead enc bs with
    | some text => (text, enc)
    | none => tryEncodings bs rest

/-- `DocumentProcessor.extract_text_from_txt`: returns the decoded text and
the successful encoding; on total failure returns `("", "")` (the Python
code returns `"", {}` — no `DecodingError` is raised).  The remaining
metadata fields (line/word/char counts) are derived values not modelled
here. -/
def extract_text_from_txt (bs : List Nat) : String × String :=
  tryEncodings bs txtEncodings

/-- The claim's reading of extraction, stated independently for
comparison: the text of the *first encoding that succeeds* in the ordered
list utf-8, utf-16, latin-1, cp1252, or `none` if none succeed. -/
def firstSuccessfulEncoding (bs : List Nat) : Option (String × String) :=
  match pyTextRead "utf-8" bs with
  | some t => some (t, "utf-8")
  | none =>
    match pyTextRead "utf-16" bs with
    | some t => some (t, "utf-16")
    | none =>
      match pyTextRead "latin-1" bs with
      | some t => some (t, "latin-1")
      | none => (pyTextRead "cp1252" bs).map (fun t => (t, "cp1252"))

/-! ## Chunker

The repository delegates chunking to langchain's
`RecursiveCharacterTextSplitter` (external library code, not part of this
repository), configured in `DocumentProcessor.__init__` with
`chunk_size=1000`, `chunk_overlap=200` and in `Summarizer.__init__` with
`chunk_size=2000`, `chunk_overlap=200`. -/

inductive ChunkError where
  | invalidConfig
  | emptyResult
deriving Repr, DecidableEq

/-- Characters treated as sentence terminators or line breaks by the
chunk-boundary search. -/
def isBoundaryChar (c : Char) : Bool :=
  c = '.' || c = '!' || c = '?' || c = '\n'

/-- Index (if any) of the last boundary character in `chars[start..stop)`. -/
def lastBoundary (chars : List Char) (start stop : Nat) : Option Nat :=
  ((List.range' start (stop - start)).filter
    (fun i => isBoundaryChar (chars.getD i ' '))).getLast?

/-- The right edge of the window starting at `start`: `start + cs`, clipped
to the text, and shrunk back to the last sentence boundary when that
boundary lies past the window's midpoint. -/
def windowEnd (cs : Nat) (chars : List Char) (start : Nat) : Nat :=
  let wEnd := min (start + cs) chars.length
  if wEnd < chars.length then
    match lastBoundary chars start wEnd with
    | some b => if start + cs / 2 < b + 1 then b + 1 else wEnd
    | none => wEnd
  else wEnd

/-- Modelled from the spec: the window-advancing loop of §4.3 (the
repository's chunker is langchain's `RecursiveCharacterTextSplitter`, whose
code is not in the repository).  A window of `cs` characters is taken; when
its right edge falls before the end of the text, the window may shrink back
to the last sentence boundary.  The next window starts at `end - ov`.  The
final guard stops when no forward progress is possible (the spec requires
the implementation to enforce progress or fail fast). -/
def splitWindows (cs ov : Nat) (chars : List Char) (start : Nat) :
    List (List Char) :=
  if chars.length ≤ start then []
  else
    let chunk := (chars.drop start).take (windowEnd cs chars start - start)
    if chars.length ≤ windowEnd cs chars start then [chunk]
    else if windowEnd cs chars start - ov ≤ start then [chunk]
    else chunk :: splitWindows cs ov chars (windowEnd cs chars start - ov)
termination_by chars.length - start
decreasing_by
  rename_i h1 _ h3
  omega

/-- Modelled from the spec: `split(text, chunk_size, overlap)` of §4.3.
Overlap not strictly below the chunk size fails fast; text no longer than
one chunk is returned whole; otherwise the window loop runs,
empty/whitespace-only chunks are discarded, and zero surviving chunks from
non-empty input is `EmptyResultError`. -/
def split (chunk_size chunk_overlap : Nat) (text : String) :
    Except ChunkError (List String) :=
  if chunk_size ≤ chunk_overlap then .error .invalidConfig
  else if text.length ≤ chunk_size then .ok [text]
  else
    let pieces := (splitWindows chunk_size chunk_overlap text.data 0).filter
      (fun c => ¬ (pyStripL c).isEmpty)
    if pieces.isEmpty then .error .emptyResult
    else .ok (pieces.map String.mk)

/-- `DocumentProcessor.create_intelligent_chunks`, chunk texts only: the
source wraps each piece of `self.text_splitter.split_text(text)` in a
LangChain document whose metadata records the chunk index and counts.  The
library splitter raises nothing; the modelled failure cases map to the
empty list. -/
def create_intelligent_chunks (text : String) : List String :=
  match split 1000 200 text with
  | .ok cs => cs
  | .error _ => []

/-! ## Content store (`metadata.db`) and the processing pipeline -/

/-- A row of the `documents` table. -/
structure DocRecord where
  id : Nat
  filename : String
  file_hash : String
  file_size : Nat
  file_type : String
  processed_at : Nat
  total_chunks : Nat
  total_chars : Nat
  language : String
  summary : String
deriving Repr, DecidableEq

/-- A row of the `chunks` table. -/
structure ChunkRecord where
  id : Nat
  document_id : Nat
  chunk_index : Nat
  chunk_text : String
  chunk_length : Nat
  embedding_vector : List Nat
deriving Repr, DecidableEq

/-- The SQLite store: both tables plus the autoincrement counters. -/
structure Store where
  documents : List DocRecord
  chunks : List ChunkRecord
  next_doc_id : Nat
  next_chunk_id : Nat
deriving Repr, DecidableEq

/-- A fresh database (SQLite autoincrement ids start at 1). -/
def emptyStore : Store := ⟨[], [], 1, 1⟩

/-- `DocumentProcessor.is_document_cached`: `SELECT id FROM documents WHERE
file_hash = ?` returns a row. -/
def is_document_cached (st : Store) (file_hash : String) : Bool :=
  st.documents.any (fun d => d.file_hash == file_hash)

/-- The `for i, (chunk, embedding) in enumerate(zip(chunks, embeddings))`
insertion loop of `save_to_cache`. -/
def mkChunkRecords (cid did i : Nat) :
    List (String × List Nat) → List ChunkRecord
  | [] => []
  | (c, e) :: rest =>
    ⟨cid, did, i, c, c.length, e⟩ :: mkChunkRecords (cid + 1) did (i + 1) rest

/-- `DocumentProcessor.save_to_cache`: insert the document row (with
`total_chunks = len(chunks)` and `total_chars = sum(len(chunk) for chunk in
chunks)`), then one chunk row per element of `zip(chunks, embeddings)`.
`language`/`summary` stand for `metadata.get('language', 'unknown')` and
`metadata.get('summary', '')`.  The error models SQLite's UNIQUE constraint
on `file_hash`. -/
def save_to_cache (st : Store) (now : Nat) (file_hash filename : String)
    (file_size : Nat) (file_type : String) (chunks : List String)
    (embeddings : List (List Nat)) (language summary : String) :
    Except String (Store × Nat) :=
  if is_document_cached st file_hash then
    .error "UNIQUE constraint failed: documents.file_hash"
  else
    let did := st.next_doc_id
    let doc : DocRecord :=
      ⟨did, filename, file_hash, file_size, file_type, now,
        chunks.length, (chunks.map String.length).sum, language, summary⟩
    let recs := mkChunkRecords st.next_chunk_id did 0 (chunks.zip embeddings)
    .ok (⟨st.documents ++ [doc], st.chunks ++ recs,
          did + 1, st.next_chunk_id + recs.length⟩, did)

/-- The file handed to `process_document`: its raw bytes, the original
filename, and `Path(file_path).suffix.lower()`. -/
structure FileInput where
  bytes : List Nat
  filename : String
  ext : String
deriving Repr, DecidableEq

/-- The dictionary returned by `process_document` (the fields the claims
inspect). -/
structure ProcResult where
  status : String
  file_hash : String
  document_id : Option Nat
  chunks_count : Option Nat
deriving Repr, DecidableEq

/-- `self.supported_formats`. -/
def supported_formats : List String := [".pdf", ".docx", ".txt", ".md", ".rtf"]

/-- `DocumentProcessor.process_document`.  `extractPdf`/`extractDocx` stand
for the external-library extractors (PyMuPDF/PyPDF2 and python-docx, which
the source wraps so that failures yield an empty string); `embed` stands
for the sentence-transformer encoder, one vector per chunk text; `now` is
`datetime.now()`. -/
def process_document (extractPdf extractDocx : List Nat → String)
    (embed : String → List Nat) (now : Nat) (st : Store) (f : FileInput) :
    Except String (Store × ProcResult) :=
  let file_size := f.bytes.length
  if ¬ supported_formats.contains f.ext then
    .error ("Unsupported file format: " ++ f.ext)
  else
    let file_hash := get_file_hash f.bytes
    if is_document_cached st file_hash then
      .ok (st, ⟨"cached", file_hash, none, none⟩)
    else
      let textE : Except String String :=
        if f.ext = ".pdf" then .ok (extractPdf f.bytes)
        else if f.ext = ".docx" then .ok (extractDocx f.bytes)
        else if f.ext = ".txt" ∨ f.ext = ".md" then
          .ok (extract_text_from_txt f.bytes).1
        else .error ("Extraction not implemented for: " ++ f.ext)
      match textE with
      | .error e => .error e
      | .ok text =>
        if text = "" then .error "No text could be extracted from the document"
        else
          let ct := clean_text text
          let chunks := create_intelligent_chunks ct
          let embeddings := chunks.map embed
          match save_to_cache st now file_hash f.filename file_size f.ext
              chunks embeddings "unknown" "" with
          | .error e => .error e
          | .ok (st', did) =>
            .ok (st', ⟨"processed", file_hash, some did, some chunks.length⟩)

/-- `DocumentProcessor.cleanup_cache`.  Its first statement is
`cutoff_date = datetime.now() - timedelta(days=days_old)`, but the module
only imports `datetime` from the `datetime` module — `timedelta` is never
imported — so every call raises `NameError` before touching the database. -/
def cleanup_cache (_st : Store) (_days_old : Nat) : Except String Store :=
  .error "NameError: name 'timedelta' is not defined"

/-! ## Summarizer (`src/core/summarizer.py`)

`_gemini_complete` posts to the Gemini API inside a `try/except` that
catches every exception and returns `""`; we model the network call as a
parameter `backend` and keep the catch-all. -/

/-- `_gemini_complete`: the successful path returns
`parts[0]["text"].strip()`; any exception (timeout, HTTP error, missing
candidates indexing) yields `""`.  A successful response with no candidates
also returns `""`, which a caller cannot distinguish from a failure — model
it as `backend` returning `.ok ""`. -/
def _gemini_complete (backend : String → Except String String)
    (prompt : String) : String :=
  match backend prompt with
  | .ok s => pyStrip s
  | .error _ => ""

/-- The summarizer's splitter (`chunk_size=2000`, `chunk_overlap=200`);
the library splitter raises nothing, so modelled failures map to `[]`. -/
def summarizerChunks (text : String) : List String :=
  match split 2000 200 text with
  | .ok cs => cs
  | .error _ => []

/-- The first-sentence fallback used by `summarize` when the backend yields
nothing: `chunk.split(".")[0] + "."`. -/
def firstSentenceFallback (chunk : String) : String :=
  String.mk ((splitOnChar '.' chunk.data).headD []) ++ "."

/-- `Summarizer.summarize`. -/
def summarize (backend : String → Except String String) (text : String)
    (max_len : Nat := 150) (min_len : Nat := 40) : String :=
  if pyStrip text = "" then ""
  else
    let chunks := summarizerChunks text
    let summaries := chunks.map (fun chunk =>
      let prompt := "You are a helpful assistant. Summarize the following passage in "
        ++ toString min_len ++ "-" ++ toString max_len
        ++ " words, keeping all key facts:\n\n" ++ chunk
      let summary := _gemini_complete backend prompt
      if summary ≠ "" then summary else firstSentenceFallback chunk)
    pyStrip (pyReplace (pyJoin " " summaries) "  " " ")

/-! ### Section detection (`Summarizer._detect_sections`) -/

/-- The `common_headers` keyword list. -/
def common_headers : List String :=
  ["introduction", "abstract", "executive summary", "overview",
   "background", "literature review", "methodology", "methods",
   "results", "findings", "discussion", "analysis", "conclusion",
   "recommendations", "implications", "future work", "references",
   "bibliography", "appendix", "acknowledgments", "summary",
   "challenges", "opportunities", "impact", "benefits", "risks",
   "implementation", "strategy", "approach", "framework", "model",
   "case study", "examples", "applications", "limitations"]

/-- Consume `^\d+[\.\)]\s+` and return the remainder of the line, or `none`
if the prefix does not match. -/
def matchNumPrefix (s : List Char) : Option (List Char) :=
  if (s.takeWhile Char.isDigit).isEmpty then none
  else
    match s.dropWhile Char.isDigit with
    | p :: rest =>
      if p = '.' ∨ p = ')' then
        if (rest.takeWhile isPyWS).isEmpty then none
        else some (rest.dropWhile isPyWS)
      else none
    | [] => none

/-- `re.match(r'^\d+[\.\)]\s+[A-Za-z]', s)`. -/
def matchNumberedLetter (s : String) : Bool :=
  match matchNumPrefix s.data with
  | some (c :: _) => c.isAlpha
  | _ => false

/-- `re.match(r'^\d+[\.\)]\s+', s)`. -/
def matchNumbered (s : String) : Bool :=
  (matchNumPrefix s.data).isSome

def isRomanChar (c : Char) : Bool := c = 'I' || c = 'V' || c = 'X'

/-- `re.match(r'^[IVX]+\.\s+[A-Z]', s)`. -/
def matchRoman (s : String) : Bool :=
  if (s.data.takeWhile isRomanChar).isEmpty then false
  else
    match s.data.dropWhile isRomanChar with
    | p :: rest =>
      (p = '.' : Bool) && ¬ (rest.takeWhile isPyWS).isEmpty &&
        (match rest.dropWhile isPyWS with
         | c :: _ => c.isUpper
         | [] => false)
    | [] => false

/-- Does the word start with an upper-case letter (`word[0].isupper()`)? -/
def startsUpper (w : String) : Bool :=
  match w.data with
  | c :: _ => c.isUpper
  | [] => false

/-- The title-case heuristic: short line, initial capital, no terminal
punctuation, not a number, at most 5 words, at least 70 percent of which
start with a capital (`title_case_count >= len(words) * 0.7`; for at most
five words the comparison against the float is integer-exact, so it is
rendered as `10 * count ≥ 7 * len(words)`). -/
def titleCaseHeader (ls : String) : Bool :=
  0 < ls.length && ls.length < 80 && startsUpper ls &&
  ¬ endsWithSentencePunct ls &&
  ¬ pyIsDigit ls &&
  (let words := pySplitWS ls
   words.length ≤ 5 && 10 * (words.filter startsUpper).length ≥ 7 * words.length)

/-- The per-line header test of `_detect_sections`, heuristics tried in
source order with first match winning (every branch titles the section with
the stripped line, so the priority order only selects which test fires). -/
def is_header_line (line : String) : Bool :=
  let ls := pyStrip line
  if ls = "" then false
  else
    if common_headers.any (fun h => pyContains (pyLower ls) h) && ls.length < 100
      then true
    else if matchNumberedLetter ls then true
    else if matchNumbered ls then true
    else if matchRoman ls then true
    else if pyIsUpper ls && ls.length < 50 then true
    else titleCaseHeader ls

/-- Flush the accumulated section body: append `(current_section,
content)` only when a section is open (`current_section` truthy), lines
were accumulated, and the joined body is non-empty after stripping. -/
def flushSection (secs : List (String × String)) (cur : Option String)
    (content : List String) : List (String × String) :=
  match cur with
  | some t =>
    if t ≠ "" ∧ content ≠ [] then
      let ct := pyStrip (pyJoin "\n" content)
      if ct ≠ "" then secs ++ [(t, ct)] else secs
    else secs
  | none => secs

/-- The per-line transition of `_detect_sections`' loop: a header line
flushes the open section and opens a new one titled with the stripped line;
any other line is appended to the open section's content. -/
def detectStep (acc : List (String × String) × Option String × List String)
    (line : String) : List (String × String) × Option String × List String :=
  if is_header_line line then
    (flushSection acc.1 acc.2.1 acc.2.2, some (pyStrip line), [])
  else
    (acc.1, acc.2.1, acc.2.2 ++ [line])

/-- The epilogue of `_detect_sections`: flush the final section; if no
sections were found, the whole document becomes one generically-titled
section. -/
def finishSections (fin : List (String × String) × Option String × List String)
    (text : String) : List (String × String) :=
  if (flushSection fin.1 fin.2.1 fin.2.2).isEmpty then [("Document", text)]
  else flushSection fin.1 fin.2.1 fin.2.2

/-- `Summarizer._detect_sections`. -/
def _detect_sections (text : String) : List (String × String) :=
  finishSections ((splitLines text).foldl detectStep ([], none, [])) text

/-- One element of the `sections` list built by
`summarize_with_sections`. -/
structure SectionSummary where
  title : String
  content : String
  summary : String
  word_count : Nat
  char_count : Nat
deriving Repr, DecidableEq

/-- The dictionary returned by `summarize_with_sections`. -/
structure SectionsResult where
  overall_summary : String
  sections : List SectionSummary
  total_sections : Nat
deriving Repr, DecidableEq

/-- `Summarizer.summarize_with_sections`.  Note: unlike `summarize`, the
overall and per-section summaries take `_gemini_complete`'s output as-is,
with no first-sentence fallback. -/
def summarize_with_sections (backend : String → Except String String)
    (text : String) (max_len : Nat := 150) (min_len : Nat := 40) :
    SectionsResult :=
  if pyStrip text = "" then ⟨"", [], 0⟩
  else
    let sections := _detect_sections text
    let overall_prompt := "Provide an executive summary of the following document in "
      ++ toString min_len ++ "-" ++ toString max_len ++ " words:\n\n" ++ text
    let overall := _gemini_complete backend overall_prompt
    let secs := sections.filterMap (fun tb =>
      if pyStrip tb.2 = "" then none
      else
        let prompt := "Summarize the section titled '" ++ tb.1 ++ "' in "
          ++ toString min_len ++ "-" ++ toString max_len ++ " words:\n\n" ++ tb.2
        let summ := _gemini_complete backend prompt
        some ⟨tb.1,
          pyTake 600 (pyStrip tb.2) ++ (if tb.2.length > 600 then "â€¦" else ""),
          summ, (pySplitWS tb.2).length, tb.2.length⟩)
    ⟨overall, secs, secs.length⟩

/-! ## Basic RAG engine (`src/core/basic_rag_engine.py`)

The LangChain QA chain (retrieval + generation) is the parameter `chain`;
`datetime.now()` is the parameter `now`. -/

/-- One entry of the `sources` list of a response. -/
structure SourceInfo where
  source : String
  content : String
  index : Nat
deriving Repr, DecidableEq

/-- The `BasicRAGResponse` dataclass. -/
structure BasicRAGResponse where
  answer : String
  sources : List SourceInfo
  timestamp : Nat
deriving Repr, DecidableEq

/-- A retrieved source document: its page content and its
`metadata.get('source', ...)` value. -/
structure RetrievedDoc where
  page_content : String
  source : Option String
deriving Repr, DecidableEq

/-- The chain's response dictionary: `result` and `source_documents`. -/
structure ChainResponse where
  result : Option String
  source_documents : List RetrievedDoc
deriving Repr, DecidableEq

/-- The engine's mutable state: the query counter and the optional vector
store (modelled by its list of stored documents). -/
structure RAGState where
  total_queries : Nat
  vector_store : Option (List String)
deriving Repr, DecidableEq

/-- A fresh `BasicRAGEngine`. -/
def initialRAGState : RAGState := ⟨0, none⟩

/-- `BasicRAGEngine.ask`: the counter is incremented first (it is the first
statement of the `try` block and cannot itself fail); any failure of the
chain call is caught and turned into an error-message response with no
sources. -/
def ask (chain : String → Except String ChainResponse) (now : Nat)
    (st : RAGState) (query : String) : RAGState × BasicRAGResponse :=
  let st' : RAGState := { st with total_queries := st.total_queries + 1 }
  match chain query with
  | .ok resp =>
    let answer := resp.result.getD "I couldn't find a relevant answer."
    let sources := (resp.source_documents.take 3).enum.map (fun p =>
      { source := p.2.source.getD "Unknown document"
        content :=
          if p.2.page_content.length > 200 then pyTake 200 p.2.page_content ++ "..."
          else p.2.page_content
        index := p.1 + 1 })
    (st', ⟨answer, sources, now⟩)
  | .error e =>
    (st', ⟨"Sorry, I encountered an error: " ++ e, [], now⟩)

/-- The dictionary returned by `BasicRAGEngine.get_stats`. -/
structure RAGStats where
  total_queries : Nat
  vector_store_size : Nat
deriving Repr, DecidableEq

/-- `BasicRAGEngine.get_stats`. -/
def get_stats (st : RAGState) : RAGStats :=
  ⟨st.total_queries,
   match st.vector_store with
   | some docs => docs.length
   | none => 0⟩

/-! ## Concrete instances used to exercise the theorems -/

/-- A generation backend whose every call fails (e.g. a network timeout). -/
def failingBackend : String → Except String String := fun _ => .error "timeout"

/-- A degenerate embedder: one fixed vector per text. -/
def zeroEmbed : String → List Nat := fun _ => [0]

/-- An external extractor that produces no text. -/
def noExtract : List Nat → String := fun _ => ""

/-- A two-byte text file containing `hi`. -/
def demoTxtFile : FileInput := ⟨[104, 105], "hi.txt", ".txt"⟩

/-- The same bytes under another name. -/
def demoTxtFileCopy : FileInput := ⟨[104, 105], "copy.txt", ".txt"⟩

/-- The same bytes with an `.rtf` extension. -/
def demoRtfFile : FileInput := ⟨[104, 105], "a.rtf", ".rtf"⟩

/-- SHA-256 of the bytes `hi`. -/
def demoHash : String :=
  "8f434346648f6b96df89dda901c5176b10a6d83961dd3c1ac88b59b2dc327aa4"

/-- The store after processing `demoTxtFile` into `emptyStore`. -/
def demoStore1 : Store :=
  ⟨[⟨1, "hi.txt", demoHash, 2, ".txt", 1, 1, 2, "unknown", ""⟩],
   [⟨1, 1, 0, "hi", 2, [0]⟩], 2, 2⟩

/-- The result of that first processing call. -/
def demoResult1 : ProcResult := ⟨"processed", demoHash, some 1, some 1⟩

/-- The store after saving two chunks with two embeddings into a fresh
store. -/
def demoStore2 : Store :=
  ⟨[⟨1, "f.txt", "h", 3, ".txt", 5, 2, 3, "unknown", ""⟩],
   [⟨1, 1, 0, "ab", 2, [0]⟩, ⟨2, 1, 1, "c", 1, [1]⟩], 2, 3⟩

/-! ### Structural predicates for the normalizer proofs -/

/-- Every character of `l` survives step 2 unchanged. -/
def AllAllowed (l : List Char) : Prop := ∀ c ∈ l, isAllowed c = true

/-- The only whitespace character occurring in `l` is the plain space. -/
def SpaceOnly (l : List Char) : Prop := ∀ c ∈ l, isPyWS c = true → c = ' '

/-- No two adjacent characters of `l` are both whitespace. -/
def NoDoubleWS (l : List Char) : Prop :=
  List.Chain' (fun a b => ¬(isPyWS a = true ∧ isPyWS b = true)) l

/-- `l` neither starts nor ends with whitespace. -/
def Stripped (l : List Char) : Prop :=
  (∀ c, l.head? = some c → isPyWS c = false) ∧
  (∀ c, l.getLast? = some c → isPyWS c = false)

theorem dropWhile_head_not (p : Char → Bool) (l : List Char) (c : Char)
    (h : (l.dropWhile p).head? = some c) : p c = false := by
  induction l with
  | nil => simp [List.dropWhile] at h
  | cons a rest ih =>
    rw [List.dropWhile] at h
    cases hp : p a with
    | true => rw [hp] at h; exact ih h
    | false => rw [hp] at h; simp at h; rw [← h]; exact hp

theorem dropWhile_eq_self_of_head (p : Char → Bool) (l : List Char)
    (h : ∀ c, l.head? = some c → p c = false) : l.dropWhile p = l := by
  cases l with
  | nil => simp [List.dropWhile]
  | cons a rest =>
    rw [List.dropWhile, h a (by simp)]

/-- `pyStripL l` is a contiguous slice of `l`. -/
theorem pyStripL_slice (l : List Char) : pyStripL l <:+: l := by
  have h1 : List.dropWhile isPyWS l <:+ l := List.dropWhile_suffix _
  have h2 : List.dropWhile isPyWS (List.dropWhile isPyWS l).reverse <:+
      (List.dropWhile isPyWS l).reverse := List.dropWhile_suffix _
  have h3 : pyStripL l <+: List.dropWhile isPyWS l := by
    apply List.reverse_suffix.mp
    simpa [pyStripL] using h2
  exact h3.isInfix.trans h1.isInfix

theorem pyStripL_stripped (l : List Char) : Stripped (pyStripL l) := by
  constructor
  · intro c hc
    unfold pyStripL at hc
    rw [List.head?_reverse] at hc
    -- hc : getLast? of the right-trimmed reversal; transport to the head of
    -- the left-trimmed list
    rcases List.dropWhile_suffix (l := (List.dropWhile isPyWS l).reverse) isPyWS with ⟨t, ht⟩
    have hne : List.dropWhile isPyWS (List.dropWhile isPyWS l).reverse ≠ [] := by
      intro h0; rw [h0] at hc; simp at hc
    have h2 : (List.dropWhile isPyWS l).reverse.getLast? = some c := by
      rw [← ht, List.getLast?_append_of_ne_nil t hne]; exact hc
    rw [List.getLast?_reverse] at h2
    exact dropWhile_head_not _ _ _ h2
  · intro c hc
    unfold pyStripL at hc
    rw [List.getLast?_reverse] at hc
    exact dropWhile_head_not _ _ _ hc

theorem pyStripL_eq_self (l : List Char) (h : Stripped l) : pyStripL l = l := by
  unfold pyStripL
  rw [dropWhile_eq_self_of_head _ _ (fun c hc => h.1 c hc),
      dropWhile_eq_self_of_head _ _ (fun c hc => h.2 c (by rwa [List.head?_reverse] at hc)),
      List.reverse_reverse]

theorem mem_collapseWS (l : List Char) :
    ∀ c, c ∈ collapseWS l → c = ' ' ∨ c ∈ l := by
  induction l using collapseWS.induct with
  | case1 => intro c h; simp [collapseWS] at h
  | case2 a rest ha ih =>
    intro c h
    rw [collapseWS, if_pos ha] at h
    rcases List.mem_cons.mp h with h | h
    · exact Or.inl h
    · rcases ih c h with h' | h'
      · exact Or.inl h'
      · exact Or.inr (List.mem_cons_of_mem a ((List.dropWhile_suffix (l := rest) isPyWS).subset h'))
  | case3 a rest ha ih =>
    intro c h
    rw [collapseWS, if_neg ha] at h
    rcases List.mem_cons.mp h with h | h
    · exact Or.inr (by simp [h])
    · rcases ih c h with h' | h'
      · exact Or.inl h'
      · exact Or.inr (List.mem_cons_of_mem a h')

theorem spaceOnly_collapseWS (l : List Char) : SpaceOnly (collapseWS l) := by
  induction l using collapseWS.induct with
  | case1 => intro c hc; simp [collapseWS] at hc
  | case2 a rest ha ih =>
    intro c hc hw
    rw [collapseWS, if_pos ha] at hc
    rcases List.mem_cons.mp hc with hc | hc
    · exact hc
    · exact ih c hc hw
  | case3 a rest ha ih =>
    intro c hc hw
    rw [collapseWS, if_neg ha] at hc
    rcases List.mem_cons.mp hc with hc | hc
    · subst hc; rw [hw] at ha; exact absurd rfl ha
    · exact ih c hc hw

theorem collapseWS_head_spec (l : List Char) :
    ∀ c, (collapseWS l).head? = some c → (isPyWS c = false ∨ c = ' ') := by
  induction l using collapseWS.induct with
  | case1 => intro c hc; simp [collapseWS] at hc
  | case2 a rest ha _ =>
    intro c hc
    rw [collapseWS, if_pos ha] at hc
    simp at hc
    exact Or.inr hc.symm
  | case3 a rest ha _ =>
    intro c hc
    rw [collapseWS, if_neg ha] at hc
    simp at hc
    subst hc
    exact Or.inl (by revert ha; cases isPyWS a <;> simp)

theorem noDoubleWS_collapseWS (l : List Char) : NoDoubleWS (collapseWS l) := by
  induction l using collapseWS.induct with
  | case1 => simp [collapseWS, NoDoubleWS]
  | case2 a rest ha ih =>
    rw [NoDoubleWS, collapseWS, if_pos ha]
    refine List.chain'_cons'.mpr ⟨?_, ih⟩
    intro y hy hcon
    -- after a collapsed run the next emitted character is not whitespace
    have : isPyWS y = false ∨ y = ' ' :=
      collapseWS_head_spec (rest.dropWhile isPyWS) y hy
    rcases this with h' | h'
    · rw [h'] at hcon; exact absurd hcon.2 (by simp)
    · subst h'
      -- a space at the head of `collapseWS (dropWhile ...)` can only arise
      -- from a whitespace head of `dropWhile isPyWS rest`, contradiction
      rcases he : rest.dropWhile isPyWS with _ | ⟨b, rest'⟩
      · rw [he] at hy; simp [collapseWS] at hy
      · have hb : isPyWS b = false := by
          have := dropWhile_head_not isPyWS rest b (by rw [he]; simp)
          exact this
        rw [he, collapseWS, if_neg (by simp [hb])] at hy
        simp at hy
        rw [hy] at hb
        simp [isPyWS] at hb
  | case3 a rest ha ih =>
    rw [NoDoubleWS, collapseWS, if_neg ha]
    refine List.chain'_cons'.mpr ⟨?_, ih⟩
    intro y _ hcon
    exact ha hcon.1

theorem collapseWS_eq_self (l : List Char) (hs : SpaceOnly l) (hd : NoDoubleWS l) :
    collapseWS l = l := by
  induction l with
  | nil => simp [collapseWS]
  | cons a rest ih =>
    by_cases ha : isPyWS a = true
    · have ha' : a = ' ' := hs a (by simp) ha
      rw [collapseWS, if_pos ha]
      have hrest : rest.dropWhile isPyWS = rest := by
        apply dropWhile_eq_self_of_head
        intro c hc
        cases rest with
        | nil => simp at hc
        | cons b rest' =>
          simp at hc
          subst hc
          have h2 := (List.chain'_cons.mp hd).1
          cases hb : isPyWS b with
          | false => rfl
          | true => exact absurd ⟨ha, hb⟩ h2
      rw [hrest, ha',
        ih (fun c hc hw => hs c (List.mem_cons_of_mem a hc) hw) (List.Chain'.tail hd)]
    · rw [collapseWS, if_neg ha,
        ih (fun c hc hw => hs c (List.mem_cons_of_mem a hc) hw) (List.Chain'.tail hd)]

theorem allAllowed_substDisallowed (l : List Char) : AllAllowed (substDisallowed l) := by
  intro c hc
  simp only [substDisallowed, List.mem_map] at hc
  rcases hc with ⟨a, _, ha⟩
  by_cases h : isAllowed a = true
  · rw [if_pos h] at ha; rw [← ha]; exact h
  · rw [if_neg h] at ha; rw [← ha]; rfl

theorem spaceOnly_substDisallowed (l : List Char) (hs : SpaceOnly l) :
    SpaceOnly (substDisallowed l) := by
  intro c hc hw
  simp only [substDisallowed, List.mem_map] at hc
  rcases hc with ⟨a, hal, ha⟩
  by_cases h : isAllowed a = true
  · rw [if_pos h] at ha; subst ha; exact hs a hal hw
  · rw [if_neg h] at ha; exact ha.symm

theorem substDisallowed_eq_self (l : List Char) (h : AllAllowed l) :
    substDisallowed l = l := by
  induction l with
  | nil => rfl
  | cons a rest ih =>
    have ha := h a (by simp)
    have hr := ih (fun c hc => h c (List.mem_cons_of_mem a hc))
    simp only [substDisallowed, List.map_cons, if_pos ha] at *
    rw [hr]

theorem spaceOnly_no_newline (l : List Char) (hs : SpaceOnly l) : '\n' ∉ l := by
  intro h
  have := hs '\n' h (by rfl)
  simp at this

theorem normBreaks_eq_self (l : List Char) (h : '\n' ∉ l) : normBreaks l = l := by
  induction l with
  | nil => simp [normBreaks]
  | cons a rest ih =>
    have ha : ¬ a = '\n' := fun hc => h (by simp [hc])
    rw [normBreaks]
    simp only [if_neg ha]
    rw [ih (fun hc => h (List.mem_cons_of_mem a hc))]

theorem allAllowed_of_slice (l₁ l₂ : List Char) (h : l₁ <:+: l₂)
    (ha : AllAllowed l₂) : AllAllowed l₁ :=
  fun c hc => ha c (h.subset hc)

theorem spaceOnly_of_slice (l₁ l₂ : List Char) (h : l₁ <:+: l₂)
    (hs : SpaceOnly l₂) : SpaceOnly l₁ :=
  fun c hc hw => hs c (h.subset hc) hw

theorem allAllowed_collapseWS (l : List Char) (h : AllAllowed l) :
    AllAllowed (collapseWS l) := by
  intro c hc
  rcases mem_collapseWS l c hc with h' | h'
  · rw [h']; rfl
  · exact h c h'

/-- On input whose characters are allowed and whose whitespace is spaces
only, one cleaning pass is just collapse-then-strip: the character
substitution and the blank-line normalization are the identity. -/
theorem cleanL_of_good (l : List Char) (h1 : AllAllowed l) :
    cleanL l = pyStripL (collapseWS l) := by
  unfold cleanL
  rw [substDisallowed_eq_self _ (allAllowed_collapseWS l h1),
      normBreaks_eq_self _ (spaceOnly_no_newline _ (spaceOnly_collapseWS l))]

/-- After one pass, every character is allowed and all whitespace is plain
spaces. -/
theorem cleanL_allAllowed (l : List Char) : AllAllowed (cleanL l) := by
  unfold cleanL
  rw [normBreaks_eq_self _ (spaceOnly_no_newline _
    (spaceOnly_substDisallowed _ (spaceOnly_collapseWS l)))]
  exact allAllowed_of_slice _ _ (pyStripL_slice _) (allAllowed_substDisallowed _)

theorem cleanL_spaceOnly (l : List Char) : SpaceOnly (cleanL l) := by
  unfold cleanL
  rw [normBreaks_eq_self _ (spaceOnly_no_newline _
    (spaceOnly_substDisallowed _ (spaceOnly_collapseWS l)))]
  exact spaceOnly_of_slice _ _ (pyStripL_slice _)
    (spaceOnly_substDisallowed _ (spaceOnly_collapseWS l))

/-- After two passes the result additionally has no adjacent whitespace and
is stripped, so it is a fixed point of the cleaner. -/
theorem cleanL_fixpoint (l : List Char) (h1 : AllAllowed l) (h2 : SpaceOnly l)
    (h3 : NoDoubleWS l) (h4 : Stripped l) : cleanL l = l := by
  rw [cleanL_of_good l h1, collapseWS_eq_self l h2 h3, pyStripL_eq_self l h4]

theorem cleanL_cleanL_fixpoint (l : List Char) :
    cleanL (cleanL (cleanL l)) = cleanL (cleanL l) := by
  have hgood : cleanL (cleanL l) = pyStripL (collapseWS (cleanL l)) :=
    cleanL_of_good _ (cleanL_allAllowed l)
  apply cleanL_fixpoint
  · exact cleanL_allAllowed _
  · exact cleanL_spaceOnly _
  · rw [hgood]
    exact List.Chain'.infix (noDoubleWS_collapseWS (cleanL l)) (pyStripL_slice _)
  · exact pyStripL_stripped _

/-! # Claim theorems -/

unseal collapseWS normBreaks in
/-- C2 (counterexample): the text normalizer is *not* idempotent as
claimed.  On `"a §b"` one pass yields `"a  b"` (the disallowed `§` becomes
a space next to an existing space), and a second pass collapses the double
space to `"a b"`. -/
theorem clean_text_not_idempotent_once :
    clean_text (clean_text "a §b") ≠ clean_text "a §b" := by decide

/-- C2 (amended): the normalizer is idempotent after its first
application: for every string `t`,
`clean(clean(clean(t))) = clean(clean(t))`.  A single application can
leave double spaces (character removal next to existing whitespace), which
the second application removes; from then on the text is a fixed point. -/
theorem clean_text_idempotent_after_first_pass (t : String) :
    clean_text (clean_text (clean_text t)) = clean_text (clean_text t) :=
  congrArg String.mk (cleanL_cleanL_fixpoint t.data)

/-- The two `clean_text` copies (document processor and `utils/text_utils`)
agree on every input. -/
theorem clean_text_utils_agrees (s : String) :
    clean_text_utils s = clean_text s := by
  unfold clean_text_utils
  split
  · rename_i h
    subst h
    simp [clean_text, cleanL, collapseWS, substDisallowed, normBreaks, pyStripL]
  · rfl

/-- C3: for every text no longer than the chunk size (with the configured
overlap smaller than the chunk size), the chunker returns exactly the
single-element sequence `[t]`. -/
theorem split_single_chunk_when_short (cs ov : Nat) (t : String)
    (hov : ov < cs) (hlen : t.length ≤ cs) :
    split cs ov t = .ok [t] := by
  unfold split
  rw [if_neg (by omega), if_pos hlen]

/-- C3 witness: the document processor's configuration (`chunk_size=1000`,
`chunk_overlap=200`) on a short text. -/
theorem split_single_chunk_witness :
    200 < 1000 ∧ ("hello world" : String).length ≤ 1000 ∧
      split 1000 200 "hello world" = .ok ["hello world"] :=
  ⟨by decide, by decide,
   split_single_chunk_when_short 1000 200 "hello world" (by decide) (by decide)⟩

/-- C5: whenever the chain call fails, `ask` returns a well-formed response
whose answer carries the error message, with an empty source list and the
current timestamp — the exception is caught, never re-raised. -/
theorem ask_returns_error_response_on_failure
    (chain : String → Except String ChainResponse) (now : Nat)
    (st : RAGState) (query e : String) (h : chain query = .error e) :
    (ask chain now st query).2 =
      ⟨"Sorry, I encountered an error: " ++ e, [], now⟩ := by
  unfold ask
  rw [h]

/-- C5 witness: a concrete failing chain. -/
theorem ask_returns_error_response_witness :
    (ask (fun _ => .error "boom") 7 initialRAGState "q").2 =
      ⟨"Sorry, I encountered an error: " ++ "boom", [], 7⟩ :=
  ask_returns_error_response_on_failure (fun _ => .error "boom") 7
    initialRAGState "q" "boom" rfl

/-- C7: the claim describes the intended retention cleanup, but
`cleanup_cache` references `timedelta` without importing it (the module
imports only `datetime` from the `datetime` module), so every call — for
every store state and every `days_old` — raises `NameError` before reading
or deleting anything. -/
theorem cleanup_cache_always_raises (st : Store) (days_old : Nat) :
    cleanup_cache st days_old =
      .error "NameError: name 'timedelta' is not defined" := rfl

/-- C9: every call to `ask` — succeeding or failing — increases
`total_queries` by exactly one, and `get_stats` reports that count. -/
theorem ask_increments_query_count
    (chain : String → Except String ChainResponse) (now : Nat)
    (st : RAGState) (query : String) :
    (ask chain now st query).1.total_queries = st.total_queries + 1 ∧
    (get_stats (ask chain now st query).1).total_queries =
      st.total_queries + 1 := by
  unfold ask get_stats
  cases hc : chain query <;> simp

/-- A run of non-header lines only accumulates content: the section list
and the open section are unchanged. -/
theorem foldl_detectStep_no_header (lines : List String)
    (secs : List (String × String)) (cur : Option String)
    (content : List String)
    (h : ∀ line ∈ lines, is_header_line line = false) :
    lines.foldl detectStep (secs, cur, content) =
      (secs, cur, content ++ lines) := by
  induction lines generalizing content with
  | nil => simp
  | cons l rest ih =>
    have hl := h l (by simp)
    simp only [List.foldl_cons, detectStep, hl]
    simp only [Bool.false_eq_true, if_false]
    rw [ih (content ++ [l]) (fun x hx => h x (by simp [hx]))]
    simp

/-- The detector's epilogue always yields at least one section. -/
theorem finishSections_nonempty
    (fin : List (String × String) × Option String × List String)
    (text : String) : 1 ≤ (finishSections fin text).length := by
  unfold finishSections
  split
  · simp
  · rename_i hne
    have h0 : ¬ flushSection fin.1 fin.2.1 fin.2.2 = [] := by
      intro h0
      exact hne (by simp [h0])
    have := List.length_pos.mpr h0
    omega

/-- C8: section detection never fails — every input yields at least one
`(title, body)` section, and an input in which no line matches any header
heuristic yields exactly one section, generically titled `"Document"`,
whose body is the full input text. -/
theorem detect_sections_total (text : String) :
    1 ≤ (_detect_sections text).length ∧
    ((∀ line ∈ splitLines text, is_header_line line = false) →
      _detect_sections text = [("Document", text)]) := by
  constructor
  · exact finishSections_nonempty _ text
  · intro hall
    unfold _detect_sections
    rw [foldl_detectStep_no_header (splitLines text) [] none [] hall]
    simp [finishSections, flushSection]

/-- C8 witness: a text with no header-like line. -/
theorem detect_sections_total_witness :
    1 ≤ (_detect_sections "zzz qqq").length ∧
      _detect_sections "zzz qqq" = [("Document", "zzz qqq")] :=
  ⟨(detect_sections_total "zzz qqq").1,
   (detect_sections_total "zzz qqq").2 (by decide)⟩

/-- C4 (counterexample): with a backend that always fails,
`summarize_with_sections` returns empty-string summaries — not the
first-sentence fallback (`"Zebra quagga."`) the claim requires — though no
exception propagates. -/
theorem summarize_with_sections_no_fallback :
    (summarize_with_sections failingBackend "Zebra quagga. Yak.").sections.map
        (fun s => s.summary) = [""] ∧
    (summarize_with_sections failingBackend "Zebra quagga. Yak.").overall_summary
      = "" ∧
    firstSentenceFallback "Zebra quagga. Yak." = "Zebra quagga." ∧
    ("" : String) ≠ "Zebra quagga." := by
  exact ⟨by decide, by decide, by decide, by decide⟩

/-- C4 (amended): when every backend call fails or returns empty output,
`summarize` returns the joined first-sentence fallbacks of its input
segments and `summarize_with_sections` returns (without raising) empty
overall and per-section summaries — no fallback is applied there. -/
theorem summarize_fallback_on_backend_failure
    (backend : String → Except String String) (text : String)
    (hfail : ∀ p, _gemini_complete backend p = "")
    (hne : ¬ pyStrip text = "") :
    summarize backend text = pyStrip (pyReplace (pyJoin " "
      ((summarizerChunks text).map firstSentenceFallback)) "  " " ") ∧
    (summarize_with_sections backend text).overall_summary = "" ∧
    ∀ s ∈ (summarize_with_sections backend text).sections, s.summary = "" := by
  refine ⟨?_, ?_, ?_⟩
  · unfold summarize
    rw [if_neg hne]
    simp [hfail]
  · unfold summarize_with_sections
    rw [if_neg hne]
    simp [hfail]
  · intro s hs
    unfold summarize_with_sections at hs
    rw [if_neg hne] at hs
    simp only [List.mem_filterMap] at hs
    rcases hs with ⟨tb, _, htb⟩
    split at htb
    · cases htb
    · rw [← Option.some.inj htb]
      exact hfail _

/-- C4 witness: the failing backend on a concrete document. -/
theorem summarize_fallback_witness :
    summarize failingBackend "Zebra quagga. Yak." =
      pyStrip (pyReplace (pyJoin " "
        ((summarizerChunks "Zebra quagga. Yak.").map firstSentenceFallback))
        "  " " ") ∧
    (summarize_with_sections failingBackend "Zebra quagga. Yak.").overall_summary
      = "" ∧
    ∀ s ∈ (summarize_with_sections failingBackend "Zebra quagga. Yak.").sections,
      s.summary = "" :=
  summarize_fallback_on_backend_failure failingBackend "Zebra quagga. Yak."
    (fun _ => rfl) (by decide)

/-- C6 (counterexample): `.rtf` is in the accepted format set, yet
`process_document` raises `ValueError("Extraction not implemented ...")`
for it — no decoding is attempted and no `DecodingError` exists. -/
theorem rtf_rejected_counterexample :
    supported_formats.contains ".rtf" = true ∧
    process_document noExtract noExtract zeroEmbed 1 emptyStore demoRtfFile =
      .error "Extraction not implemented for: .rtf" := by
  exact ⟨rfl, rfl⟩

/-- C6 (amended): for `.txt`/`.md` content the extractor tries utf-8,
utf-16, latin-1, cp1252 in that order and returns the text of the first
encoding that succeeds; since latin-1 accepts every byte sequence, decoding
never fails, so the `("", "")` failure branch — the code's substitute for
the claimed `DecodingError`, which does not exist — is unreachable. -/
theorem extract_txt_first_success (bs : List Nat) :
    (∃ t enc, firstSuccessfulEncoding bs = some (t, enc) ∧
      extract_text_from_txt bs = (t, enc)) ∧
    extract_text_from_txt bs ≠ ("", "") := by
  have hlat : pyTextRead "latin-1" bs =
      some (String.mk (translateNewlines (latin1Decode bs))) := rfl
  rcases h8 : pyTextRead "utf-8" bs with _ | t8
  · rcases h16 : pyTextRead "utf-16" bs with _ | t16
    · refine ⟨⟨String.mk (translateNewlines (latin1Decode bs)), "latin-1", ?_, ?_⟩, ?_⟩ <;>
        simp [extract_text_from_txt, tryEncodings, txtEncodings,
          firstSuccessfulEncoding, h8, h16, hlat]
    · refine ⟨⟨t16, "utf-16", ?_, ?_⟩, ?_⟩ <;>
        simp [extract_text_from_txt, tryEncodings, txtEncodings,
          firstSuccessfulEncoding, h8, h16]
  · refine ⟨⟨t8, "utf-8", ?_, ?_⟩, ?_⟩ <;>
      simp [extract_text_from_txt, tryEncodings, txtEncodings,
        firstSuccessfulEncoding, h8]

/-! ### Chunk-record bookkeeping for the save path (C10) -/

theorem mkChunkRecords_doc_id (did : Nat) (l : List (String × List Nat)) :
    ∀ cid i, ∀ r ∈ mkChunkRecords cid did i l, r.document_id = did := by
  induction l with
  | nil => intro cid i r hr; simp [mkChunkRecords] at hr
  | cons p rest ih =>
    intro cid i r hr
    rcases List.mem_cons.mp hr with h | h
    · rw [h]
    · exact ih (cid + 1) (i + 1) r h

theorem mkChunkRecords_indices (did : Nat) (l : List (String × List Nat)) :
    ∀ cid i, (mkChunkRecords cid did i l).map (fun r => r.chunk_index) =
      List.range' i l.length := by
  induction l with
  | nil => intro cid i; simp [mkChunkRecords]
  | cons p rest ih =>
    intro cid i
    simp only [mkChunkRecords, List.map_cons, ih (cid + 1) (i + 1),
      List.length_cons, List.range'_succ]

theorem mkChunkRecords_length (did : Nat) (l : List (String × List Nat)) :
    ∀ cid i, (mkChunkRecords cid did i l).length = l.length := by
  induction l with
  | nil => intro cid i; simp [mkChunkRecords]
  | cons p rest ih =>
    intro cid i
    simp [mkChunkRecords, ih (cid + 1) (i + 1)]

theorem mkChunkRecords_texts (did : Nat) (l : List (String × List Nat)) :
    ∀ cid i, (mkChunkRecords cid did i l).map (fun r => r.chunk_text) =
      l.map Prod.fst := by
  induction l with
  | nil => intro cid i; simp [mkChunkRecords]
  | cons p rest ih =>
    intro cid i
    simp [mkChunkRecords, ih (cid + 1) (i + 1)]

/-- C10 (counterexample): `save_to_cache` zips chunks with embeddings, so a
call with one chunk and zero embeddings succeeds yet records
`total_chunks = 1` and `total_chars = 2` while persisting zero chunk rows
(`0` rows, summed text length `0`). -/
theorem save_to_cache_mismatch_counterexample :
    ∃ st' did,
      save_to_cache emptyStore 1 "h" "f.txt" 2 ".txt" ["ab"] [] "unknown" ""
        = .ok (st', did) ∧
      ∃ d ∈ st'.documents, d.id = did ∧ d.total_chunks = 1 ∧
        (st'.chunks.filter (fun c => c.document_id == did)).length = 0 ∧
        d.total_chars = 2 ∧
        ((st'.chunks.filter (fun c => c.document_id == did)).map
          (fun c => c.chunk_text.length)).sum = 0 := by
  refine ⟨⟨[⟨1, "f.txt", "h", 2, ".txt", 1, 1, 2, "unknown", ""⟩], [], 2, 1⟩,
    1, rfl, ⟨1, "f.txt", "h", 2, ".txt", 1, 1, 2, "unknown", ""⟩, ?_⟩
  exact ⟨by simp, rfl, rfl, rfl, rfl, rfl⟩

/-- C10 (amended): provided `save_to_cache` receives one embedding per
chunk (as `process_document` always does) and is called on a store whose
chunk rows all belong to already-allocated documents, a successful call
persists chunk records whose indices are contiguous `0 .. total_chunks-1`
in insertion order, with `total_chunks` equal to the number of persisted
rows and `total_chars` exactly the sum of the persisted text lengths. -/
theorem save_to_cache_chunk_invariants
    (st : Store) (now : Nat) (fh fn : String) (fs : Nat) (ft : String)
    (chunks : List String) (embeddings : List (List Nat)) (lg sm : String)
    (st' : Store) (did : Nat)
    (hlen : embeddings.length = chunks.length)
    (hwf : ∀ c ∈ st.chunks, c.document_id < st.next_doc_id)
    (hok : save_to_cache st now fh fn fs ft chunks embeddings lg sm
      = .ok (st', did)) :
    ∃ d ∈ st'.documents, d.id = did ∧
      (st'.chunks.filter (fun c => c.document_id == did)).map
        (fun c => c.chunk_index) = List.range d.total_chunks ∧
      d.total_chunks =
        (st'.chunks.filter (fun c => c.document_id == did)).length ∧
      d.total_chars = ((st'.chunks.filter (fun c => c.document_id == did)).map
        (fun c => c.chunk_text.length)).sum := by
  simp only [save_to_cache] at hok
  split at hok
  · cases hok
  · injection hok with hok
    injection hok with hst hdid
    subst hst
    subst hdid
    have hzlen : (chunks.zip embeddings).length = chunks.length := by
      rw [List.length_zip]
      omega
    have hold : st.chunks.filter
        (fun c => c.document_id == st.next_doc_id) = [] := by
      apply List.filter_eq_nil_iff.mpr
      intro c hc
      have := hwf c hc
      simp only [beq_iff_eq]
      omega
    have hnew : (mkChunkRecords st.next_chunk_id st.next_doc_id 0
        (chunks.zip embeddings)).filter
        (fun c => c.document_id == st.next_doc_id) =
        mkChunkRecords st.next_chunk_id st.next_doc_id 0
          (chunks.zip embeddings) := by
      apply List.filter_eq_self.mpr
      intro c hc
      have := mkChunkRecords_doc_id st.next_doc_id (chunks.zip embeddings)
        st.next_chunk_id 0 c hc
      simp [this]
    refine ⟨{ id := st.next_doc_id, filename := fn, file_hash := fh,
              file_size := fs, file_type := ft, processed_at := now,
              total_chunks := chunks.length,
              total_chars := (chunks.map String.length).sum,
              language := lg, summary := sm },
            by simp, rfl, ?_, ?_, ?_⟩ <;>
      simp only [List.filter_append, hold, hnew, List.nil_append]
    · rw [mkChunkRecords_indices, hzlen, List.range_eq_range']
    · rw [mkChunkRecords_length, hzlen]
    · have : (mkChunkRecords st.next_chunk_id st.next_doc_id 0
          (chunks.zip embeddings)).map (fun c => c.chunk_text.length) =
          chunks.map String.length := by
        have h1 := mkChunkRecords_texts st.next_doc_id (chunks.zip embeddings)
          st.next_chunk_id 0
        have h2 : (chunks.zip embeddings).map Prod.fst = chunks :=
          List.map_fst_zip chunks embeddings (by omega)
        calc (mkChunkRecords st.next_chunk_id st.next_doc_id 0
              (chunks.zip embeddings)).map (fun c => c.chunk_text.length)
            = ((mkChunkRecords st.next_chunk_id st.next_doc_id 0
                (chunks.zip embeddings)).map (fun c => c.chunk_text)).map
                String.length := by rw [List.map_map]; rfl
          _ = chunks.map String.length := by rw [h1, h2]
      rw [this]

/-- C10 witness: two chunks, two embeddings, fresh store. -/
theorem save_to_cache_chunk_invariants_witness :
    ∃ d ∈ demoStore2.documents, d.id = 1 ∧
      (demoStore2.chunks.filter (fun c => c.document_id == 1)).map
        (fun c => c.chunk_index) = List.range d.total_chunks ∧
      d.total_chunks =
        (demoStore2.chunks.filter (fun c => c.document_id == 1)).length ∧
      d.total_chars = ((demoStore2.chunks.filter (fun c => c.document_id == 1)).map
        (fun c => c.chunk_text.length)).sum :=
  save_to_cache_chunk_invariants emptyStore 5 "h" "f.txt" 3 ".txt"
    ["ab", "c"] [[0], [1]] "unknown" "" demoStore2 1 (by decide)
    (by intro c hc; simp [emptyStore] at hc) rfl

/-! ### Content-hash caching (C1) -/

/-- A successful `save_to_cache` leaves the saved hash cached. -/
theorem save_to_cache_caches
    (st : Store) (now : Nat) (fh fn : String) (fs : Nat) (ft : String)
    (chunks : List String) (embeddings : List (List Nat)) (lg sm : String)
    (st' : Store) (did : Nat)
    (hok : save_to_cache st now fh fn fs ft chunks embeddings lg sm
      = .ok (st', did)) :
    is_document_cached st' fh = true := by
  simp only [save_to_cache] at hok
  split at hok
  · cases hok
  · injection hok with hok
    injection hok with hst _
    subst hst
    simp [is_document_cached, List.any_append]

/-- A successful `process_document` leaves the content hash of the file's
raw bytes cached, and reports exactly that hash. -/
theorem process_document_ok_cached
    (ep ed : List Nat → String) (embed : String → List Nat) (t : Nat)
    (st : Store) (f : FileInput) (st1 : Store) (r1 : ProcResult)
    (h1 : process_document ep ed embed t st f = .ok (st1, r1)) :
    is_document_cached st1 (get_file_hash f.bytes) = true ∧
    r1.file_hash = get_file_hash f.bytes := by
  simp only [process_document] at h1
  split at h1
  · cases h1
  · split at h1
    · rename_i hc
      injection h1 with h1
      injection h1 with hst hr
      subst hst
      subst hr
      exact ⟨hc, rfl⟩
    · split at h1
      · cases h1
      · split at h1
        · cases h1
        · split at h1
          · cases h1
          · rename_i st2 did hsave
            injection h1 with h1
            injection h1 with hst hr
            subst hst
            subst hr
            exact ⟨save_to_cache_caches _ _ _ _ _ _ _ _ _ _ _ _ hsave, rfl⟩

/-- C1: once a file has been processed successfully, processing any file
with byte-identical content (under any filename with a supported
extension) returns `status = "cached"` with the same content hash — the
SHA-256 digest of the raw bytes, which depends on nothing but the bytes —
and leaves the store untouched: no second document record is inserted. -/
theorem process_document_cached_second_call
    (ep ed : List Nat → String) (embed : String → List Nat) (t1 t2 : Nat)
    (st st1 : Store) (r1 : ProcResult) (f f' : FileInput)
    (hb : f'.bytes = f.bytes)
    (hext : supported_formats.contains f'.ext = true)
    (h1 : process_document ep ed embed t1 st f = .ok (st1, r1)) :
    process_document ep ed embed t2 st1 f' =
      .ok (st1, ⟨"cached", r1.file_hash, none, none⟩) ∧
    r1.file_hash = get_file_hash f'.bytes := by
  obtain ⟨hc, hh⟩ := process_document_ok_cached ep ed embed t1 st f st1 r1 h1
  have hh' : r1.file_hash = get_file_hash f'.bytes := by rw [hb, hh]
  refine ⟨?_, hh'⟩
  simp only [process_document]
  rw [if_neg (not_not_intro hext), hb]
  rw [if_pos hc, hh]

unseal collapseWS normBreaks SHA256.chunks64 in
/-- C1 witness: process `hi.txt` into a fresh store, then process the same
bytes as `copy.txt`. -/
theorem process_document_cached_second_call_witness :
    process_document noExtract noExtract zeroEmbed 2 demoStore1 demoTxtFileCopy
      = .ok (demoStore1, ⟨"cached", demoResult1.file_hash, none, none⟩) ∧
    demoResult1.file_hash = get_file_hash demoTxtFileCopy.bytes :=
  process_document_cached_second_call noExtract noExtract zeroEmbed 1 2
    emptyStore demoStore1 demoResult1 demoTxtFile demoTxtFileCopy rfl rfl rfl

end Pipeline
